import Mathlib

/-!
# Verification of the promptflow excerpt

Shallow embedding of the trace collector (`promptflow/_telemetry/tracer_manager.py`),
the `generate_seed_question` tool
(`examples/gen_test_data/gen_test_data/generate_test_data_flow/generate_question.py`),
and spec-modelled components (Experiment Controller, DAG Scheduler dispatch,
Call Recorder/Replayer) whose implementation files are not part of the excerpt.
-/

namespace PromptFlow

/-! ## Trace collector data model

A `Span` mirrors the fields of an OpenTelemetry `ReadableSpan` that
`tracer_manager.py` reads: `context.span_id`, `parent.span_id` (absent parent
modelled as `none`), `context.trace_id`, `name`, `start_time`, and the
`attributes` mapping (modelled as an association list). -/

structure Span where
  spanId : Nat
  parentSpanId : Option Nat
  traceId : Nat
  name : String
  startTime : Nat
  attributes : List (String × String)
deriving DecidableEq, Repr

/-- Python `span.attributes["root_run_id"]` raises `KeyError` when the key is
absent; the embedding's lookup returns `none` in that case. -/
def spanRootRunId (s : Span) : Option String :=
  s.attributes.lookup "root_run_id"

/-- `MemoryTraceStore.add_spans`: `self._spans.extend(spans)`. The store state
is the `_spans` list. -/
def add_spans (store : List Span) (spans : List Span) : List Span :=
  store ++ spans

/-- `MemoryTraceStore.get_spans_from_run_id`:
`[span for span in self._spans if span.attributes["root_run_id"] == run_id]`.
The comprehension raises `KeyError` (embedded as `none`) as soon as a span
without the `root_run_id` attribute is reached. -/
def get_spans_from_run_id (store : List Span) (run_id : String) : Option (List Span) :=
  match store with
  | [] => some []
  | s :: rest =>
    match spanRootRunId s with
    | none => none
    | some v =>
      match get_spans_from_run_id rest run_id with
      | none => none
      | some tail => some (if v = run_id then s :: tail else tail)

/-- `MemoryTraceStore.pop_spans_from_run_id`: first `get_spans_from_run_id`,
then `self._spans.remove(span)` for each returned span (removal of the first
matching occurrence, modelled by `List.erase`); returns the popped spans and
the remaining store. -/
def pop_spans_from_run_id (store : List Span) (run_id : String) :
    Option (List Span × List Span) :=
  match get_spans_from_run_id store run_id with
  | none => none
  | some spans => some (spans, spans.foldl (fun acc s => acc.erase s) store)

/-- The Boolean test the comprehension applies to each span. -/
def spanMatchesRun (run_id : String) (s : Span) : Bool :=
  spanRootRunId s == some run_id

/-! ## generate_seed_question

From `generate_question.py`.  Python's `if not context` is true when `context`
is `None` (the default) or the empty string; the connection and temperature
values are passed through opaquely, so they are type parameters. -/

def generate_seed_question {Conn Temp : Type}
    (llm_call : Conn → String → String → Temp → Nat → String)
    (connection : Conn) (model_or_deployment_name : String)
    (generate_question_prompt : String) (context : Option String)
    (temperature : Temp) (max_tokens : Nat) : String :=
  match context with
  | none => ""
  | some c =>
    if c = "" then ""
    else llm_call connection model_or_deployment_name generate_question_prompt
      temperature max_tokens

/-! ## Store lemmas -/

theorem get_spans_eq_filter (store : List Span) (run_id : String)
    (h : ∀ s ∈ store, (spanRootRunId s).isSome) :
    get_spans_from_run_id store run_id =
      some (store.filter (spanMatchesRun run_id)) := by
  induction store with
  | nil => rfl
  | cons s rest ih =>
    have hs : (spanRootRunId s).isSome := h s (List.mem_cons_self s rest)
    obtain ⟨v, hv⟩ := Option.isSome_iff_exists.mp hs
    have hrest := ih (fun x hx => h x (List.mem_cons_of_mem s hx))
    simp only [get_spans_from_run_id, hv, hrest, List.filter_cons, spanMatchesRun]
    by_cases hvr : v = run_id
    · subst hvr
      simp [hv]
    · simp [hv, hvr]

theorem get_spans_none_of_missing (store : List Span)
    (h : ∃ s ∈ store, spanRootRunId s = none) (run_id : String) :
    get_spans_from_run_id store run_id = none := by
  induction store with
  | nil => simp at h
  | cons s rest ih =>
    obtain ⟨x, hx, hxnone⟩ := h
    rcases List.mem_cons.mp hx with hxs | hxrest
    · subst hxs
      simp [get_spans_from_run_id, hxnone]
    · cases hs : spanRootRunId s with
      | none => simp [get_spans_from_run_id, hs]
      | some v =>
        have := ih ⟨x, hxrest, hxnone⟩
        simp [get_spans_from_run_id, hs, this]

/-- Erasing every element of `l.filter p` from `l` leaves `l.filter (!p ·)`. -/
theorem foldl_erase_filter {α : Type} [DecidableEq α] (l : List α) (p : α → Bool) :
    (l.filter p).foldl (fun acc s => acc.erase s) l = l.filter (fun s => !(p s)) := by
  have aux : ∀ (ps : List α) (x : α) (l' : List α), p x = false →
      (∀ y ∈ ps, p y = true) →
      ps.foldl (fun acc s => acc.erase s) (x :: l') =
        x :: ps.foldl (fun acc s => acc.erase s) l' := by
    intro ps
    induction ps with
    | nil => intro x l' _ _; rfl
    | cons y ps ih =>
      intro x l' hx hmem
      have hy : p y = true := hmem y (List.mem_cons_self y ps)
      have hxy : x ≠ y := by
        intro hEq
        rw [hEq, hy] at hx
        simp at hx
      have herase : (x :: l').erase y = x :: l'.erase y := by
        rw [List.erase_cons]
        simp [hxy]
      simp only [List.foldl_cons, herase]
      exact ih x (l'.erase y) hx (fun z hz => hmem z (List.mem_cons_of_mem y hz))
  induction l with
  | nil => rfl
  | cons x rest ih =>
    by_cases hx : p x = true
    · have hfil : (x :: rest).filter p = x :: rest.filter p := by
        simp [List.filter_cons, hx]
      have hfil' : (x :: rest).filter (fun s => !(p s)) = rest.filter (fun s => !(p s)) := by
        simp [List.filter_cons, hx]
      rw [hfil, hfil', List.foldl_cons, List.erase_cons_head, ih]
    · have hx' : p x = false := Bool.eq_false_iff.mpr hx
      have hfil : (x :: rest).filter p = rest.filter p := by
        simp [List.filter_cons, hx']
      have hfil' : (x :: rest).filter (fun s => !(p s)) = x :: rest.filter (fun s => !(p s)) := by
        simp [List.filter_cons, hx']
      rw [hfil, hfil', aux (rest.filter p) x rest hx' (fun y hy => List.of_mem_filter hy), ih]

/-! ## Concrete spans used as witnesses (the spec's two-span example) -/

def spanRootEx : Span :=
  { spanId := 1, parentSpanId := none, traceId := 7, name := "root",
    startTime := 0, attributes := [("root_run_id", "run1")] }

def spanChildEx : Span :=
  { spanId := 2, parentSpanId := some 1, traceId := 7, name := "child",
    startTime := 1, attributes := [("root_run_id", "run1")] }

def spanNoKeyEx : Span :=
  { spanId := 3, parentSpanId := none, traceId := 7, name := "bad",
    startTime := 0, attributes := [] }

/-- C1: for every store of ingested spans in which each span carries a
`root_run_id` attribute, `pop_spans_from_run_id` returns exactly the spans
whose `root_run_id` equals the requested run id, removes them from the store,
and a subsequent `get_spans_from_run_id` on the remaining store for the same
run id returns the empty list. -/
theorem pop_spans_from_run_id_correct (store : List Span) (run_id : String)
    (h : ∀ s ∈ store, (spanRootRunId s).isSome) :
    pop_spans_from_run_id store run_id =
      some (store.filter (spanMatchesRun run_id),
            store.filter (fun s => !(spanMatchesRun run_id s))) ∧
    get_spans_from_run_id
        (store.filter (fun s => !(spanMatchesRun run_id s))) run_id =
      some [] := by
  have hg := get_spans_eq_filter store run_id h
  constructor
  · unfold pop_spans_from_run_id
    simp only [hg]
    rw [foldl_erase_filter]
  · have hrem : ∀ s ∈ store.filter (fun s => !(spanMatchesRun run_id s)),
        (spanRootRunId s).isSome :=
      fun s hs => h s (List.mem_of_mem_filter hs)
    rw [get_spans_eq_filter _ _ hrem]
    have hnil : (store.filter (fun s => !(spanMatchesRun run_id s))).filter
        (spanMatchesRun run_id) = [] := by
      rw [List.filter_eq_nil_iff]
      intro a ha
      have := List.of_mem_filter ha
      simp only [Bool.not_eq_true'] at this
      simp [this]
    rw [hnil]

/-- Witness for C1 at the spec's two-span example. -/
theorem pop_spans_from_run_id_correct_witness :
    pop_spans_from_run_id [spanRootEx, spanChildEx] "run1" =
      some ([spanRootEx, spanChildEx].filter (spanMatchesRun "run1"),
            [spanRootEx, spanChildEx].filter
              (fun s => !(spanMatchesRun "run1" s))) ∧
    get_spans_from_run_id
        ([spanRootEx, spanChildEx].filter
          (fun s => !(spanMatchesRun "run1" s))) "run1" =
      some [] :=
  pop_spans_from_run_id_correct [spanRootEx, spanChildEx] "run1" (by decide)

/-- C9: when every span in the store carries a `root_run_id` attribute, both
accessors succeed (the missing-key branch is never taken); a store containing
a span without that attribute makes both accessors fail (return `none`,
i.e. raise `KeyError`) for every run id. -/
theorem accessors_require_root_run_id (store : List Span) (run_id : String) :
    ((∀ s ∈ store, (spanRootRunId s).isSome) →
      (get_spans_from_run_id store run_id).isSome ∧
      (pop_spans_from_run_id store run_id).isSome) ∧
    ((∃ s ∈ store, spanRootRunId s = none) →
      get_spans_from_run_id store run_id = none ∧
      pop_spans_from_run_id store run_id = none) := by
  constructor
  · intro h
    have hg := get_spans_eq_filter store run_id h
    refine ⟨by rw [hg]; rfl, ?_⟩
    unfold pop_spans_from_run_id
    rw [hg]
    rfl
  · intro h
    have hg := get_spans_none_of_missing store h run_id
    refine ⟨hg, ?_⟩
    unfold pop_spans_from_run_id
    rw [hg]

/-- Witness for C9: a well-attributed store succeeds, a store with a span
lacking `root_run_id` fails. -/
theorem accessors_require_root_run_id_witness :
    ((get_spans_from_run_id [spanRootEx] "run1").isSome ∧
      (pop_spans_from_run_id [spanRootEx] "run1").isSome) ∧
    (get_spans_from_run_id [spanRootEx, spanNoKeyEx] "run1" = none ∧
      pop_spans_from_run_id [spanRootEx, spanNoKeyEx] "run1" = none) :=
  ⟨(accessors_require_root_run_id [spanRootEx] "run1").1 (by decide),
   (accessors_require_root_run_id [spanRootEx, spanNoKeyEx] "run1").2
     ⟨spanNoKeyEx, by decide, by decide⟩⟩

/-! ## TreeConsoleSpanExporter

The exporter keeps `span_tree`, a dictionary from parent span id (`none` for
root spans) to the list of spans filed under it, and `span_start_times`.
`export` files each span of the batch under its parent id and then prints the
tree from the `none` key at level 0; `_print_tree` prints each span of a
key's list followed by the recursive print of the spans filed under that
span's id, indented two spaces per level.  Python dictionaries are modelled
as association lists (insertion-ordered, like `dict`); the unbounded Python
recursion of `_print_tree` is bounded by an explicit `fuel` argument counting
the remaining recursion depth. -/

abbrev SpanTree := List (Option Nat × List Span)

/-- `self.span_tree[parent_id]`, with the `if parent_id not in self.span_tree`
guard of `_print_tree` folded in as the empty list. -/
def treeChildren : SpanTree → Option Nat → List Span
  | [], _ => []
  | (k, l) :: rest, pid => if k = pid then l else treeChildren rest pid

/-- One iteration of the filing loop of `export`:
`self.span_tree.setdefault(parent_id, []).append(span)` in effect. -/
def addSpanToTree (tree : SpanTree) (pid : Option Nat) (s : Span) : SpanTree :=
  match tree with
  | [] => [(pid, [s])]
  | (k, l) :: rest =>
    if k = pid then (k, l ++ [s]) :: rest
    else (k, l) :: addSpanToTree rest pid s

/-- The filing loop of `export` over a whole batch. -/
def buildSpanTree (tree : SpanTree) (spans : List Span) : SpanTree :=
  spans.foldl (fun t s => addSpanToTree t s.parentSpanId s) tree

/-- `self.span_start_times[span.context.span_id] = span.start_time`. -/
def recordStartTime (times : List (Nat × Nat)) (sid t : Nat) : List (Nat × Nat) :=
  match times with
  | [] => [(sid, t)]
  | (k, v) :: rest => if k = sid then (k, t) :: rest else (k, v) :: recordStartTime rest sid t

/-- `_print_tree(parent_id, level)`: the sequence of printed entries, each a
pair of the indentation level and the span printed.  `fuel` bounds the
recursion depth (Python recursion is unbounded and loops on cyclic input). -/
def print_tree (tree : SpanTree) : Nat → Option Nat → Nat → List (Nat × Span)
  | 0, _, _ => []
  | fuel + 1, parent_id, level =>
    (treeChildren tree parent_id).flatMap
      (fun s => (level, s) :: print_tree tree fuel (some s.spanId) (level + 1))

/-- The body of `_print_tree` applied to an explicit children list. -/
def printSpanList (tree : SpanTree) (fuel : Nat) (l : List Span) (level : Nat) :
    List (Nat × Span) :=
  l.flatMap (fun s => (level, s) :: print_tree tree fuel (some s.spanId) (level + 1))

/-- `TreeConsoleSpanExporter.export`: file the batch into the tree, record
start times, then print from the `none` key at level 0. -/
def treeConsoleExport (tree : SpanTree) (times : List (Nat × Nat))
    (spans : List Span) (fuel : Nat) :
    SpanTree × List (Nat × Nat) × List (Nat × Span) :=
  let tree' := buildSpanTree tree spans
  let times' := spans.foldl (fun ts s => recordStartTime ts s.spanId s.startTime) times
  (tree', times', print_tree tree' fuel none 0)

/-- Python `"  " * level`. -/
def spanIndent : Nat → String
  | 0 => ""
  | n + 1 => "  " ++ spanIndent n

/-- The printed line
`f"{indent}- {' '.join(str(section) for section in sections_to_print)}"`. -/
def renderSpanLine (level : Nat) (s : Span) : String :=
  spanIndent level ++ "- " ++ s.name ++ " \ttrace_id: " ++ toString s.traceId ++
    " span_id: " ++ toString s.spanId

theorem spanIndent_length (level : Nat) : (spanIndent level).length = 2 * level := by
  induction level with
  | zero => rfl
  | succ n ih =>
    show ("  " ++ spanIndent n).length = 2 * (n + 1)
    rw [String.length_append, ih]
    have h2 : ("  " : String).length = 2 := rfl
    rw [h2]
    omega

theorem treeChildren_addSpanToTree (t : SpanTree) (pid : Option Nat) (s : Span)
    (k : Option Nat) :
    treeChildren (addSpanToTree t pid s) k =
      if k = pid then treeChildren t k ++ [s] else treeChildren t k := by
  induction t with
  | nil =>
    by_cases hk : k = pid
    · subst hk; simp [addSpanToTree, treeChildren]
    · have : ¬pid = k := fun h => hk h.symm
      simp [addSpanToTree, treeChildren, hk, this]
  | cons hd rest ih =>
    obtain ⟨k', l⟩ := hd
    by_cases hk' : k' = pid
    · subst hk'
      by_cases hk : k = k'
      · subst hk; simp [addSpanToTree, treeChildren]
      · have : ¬k' = k := fun h => hk h.symm
        simp [addSpanToTree, treeChildren, hk, this]
    · by_cases hk : k' = k
      · subst hk
        have h1 : ¬k' = pid := hk'
        have h2 : ¬pid = k' := fun h => h1 h.symm
        simp [addSpanToTree, treeChildren, h1, h2]
      · simp [addSpanToTree, treeChildren, hk', hk, ih]

theorem treeChildren_buildSpanTree (batch : List Span) (t : SpanTree) (k : Option Nat) :
    treeChildren (buildSpanTree t batch) k =
      treeChildren t k ++ batch.filter (fun s => s.parentSpanId == k) := by
  induction batch generalizing t with
  | nil => simp [buildSpanTree]
  | cons s rest ih =>
    show treeChildren (buildSpanTree (addSpanToTree t s.parentSpanId s) rest) k = _
    rw [ih, treeChildren_addSpanToTree, List.filter_cons]
    by_cases hk : k = s.parentSpanId
    · subst hk
      simp
    · have : ¬(s.parentSpanId == k) = true := by
        simp only [beq_iff_eq]
        exact fun h => hk h.symm
      simp [hk, this]

theorem print_tree_succ (tree : SpanTree) (fuel : Nat) (pid : Option Nat) (level : Nat) :
    print_tree tree (fuel + 1) pid level =
      printSpanList tree fuel (treeChildren tree pid) level := rfl

/-- Every printed entry is either one of the spans of the list being printed,
at exactly the list's level, or lies strictly deeper and is preceded in the
output by the span under whose id it is filed, printed one level higher. -/
theorem printSpanList_entry (fuel : Nat) :
    ∀ (tree : SpanTree) (l : List Span) (lvl j ℓ : Nat) (c : Span),
      (printSpanList tree fuel l lvl)[j]? = some (ℓ, c) →
      (ℓ = lvl ∧ c ∈ l) ∨
      (lvl < ℓ ∧ ∃ i p, i < j ∧
        (printSpanList tree fuel l lvl)[i]? = some (ℓ - 1, p) ∧
        c ∈ treeChildren tree (some p.spanId)) := by
  induction fuel with
  | zero =>
    intro tree l
    induction l with
    | nil =>
      intro lvl j ℓ c h
      simp [printSpanList] at h
    | cons s rest ihl =>
      intro lvl j ℓ c h
      have hout : printSpanList tree 0 (s :: rest) lvl =
          (lvl, s) :: printSpanList tree 0 rest lvl := by
        simp [printSpanList, List.flatMap_cons, print_tree]
      rw [hout] at h
      match j with
      | 0 =>
        rw [List.getElem?_cons_zero] at h
        have h2 : (lvl, s) = (ℓ, c) := Option.some.inj h
        have hℓ : ℓ = lvl := (congrArg Prod.fst h2).symm
        have hcs : c = s := (congrArg Prod.snd h2).symm
        exact Or.inl ⟨hℓ, by rw [hcs]; exact List.mem_cons_self s rest⟩
      | j' + 1 =>
        rw [List.getElem?_cons_succ] at h
        rcases ihl lvl j' ℓ c h with ⟨hℓ, hc⟩ | ⟨hlt, i, p, hij, hi, hcp⟩
        · exact Or.inl ⟨hℓ, List.mem_cons_of_mem s hc⟩
        · refine Or.inr ⟨hlt, i + 1, p, by omega, ?_, hcp⟩
          rw [hout, List.getElem?_cons_succ]
          exact hi
  | succ f ihf =>
    intro tree l
    induction l with
    | nil =>
      intro lvl j ℓ c h
      simp [printSpanList] at h
    | cons s rest ihl =>
      intro lvl j ℓ c h
      have hout : printSpanList tree (f + 1) (s :: rest) lvl =
          (lvl, s) ::
            (printSpanList tree f (treeChildren tree (some s.spanId)) (lvl + 1) ++
              printSpanList tree (f + 1) rest lvl) := by
        simp [printSpanList, List.flatMap_cons, print_tree_succ]
      set sub := printSpanList tree f (treeChildren tree (some s.spanId)) (lvl + 1) with hsub
      rw [hout] at h
      match j with
      | 0 =>
        rw [List.getElem?_cons_zero] at h
        have h2 : (lvl, s) = (ℓ, c) := Option.some.inj h
        have hℓ : ℓ = lvl := (congrArg Prod.fst h2).symm
        have hcs : c = s := (congrArg Prod.snd h2).symm
        exact Or.inl ⟨hℓ, by rw [hcs]; exact List.mem_cons_self s rest⟩
      | j' + 1 =>
        rw [List.getElem?_cons_succ, List.getElem?_append] at h
        by_cases hj' : j' < sub.length
        · rw [if_pos hj'] at h
          rcases ihf tree (treeChildren tree (some s.spanId)) (lvl + 1) j' ℓ c h with
            ⟨hℓ, hc⟩ | ⟨hlt, i', p, hij, hi, hcp⟩
          · refine Or.inr ⟨by omega, 0, s, by omega, ?_, hc⟩
            rw [hout, List.getElem?_cons_zero]
            have : ℓ - 1 = lvl := by omega
            rw [this]
          · refine Or.inr ⟨by omega, i' + 1, p, by omega, ?_, hcp⟩
            rw [hout, List.getElem?_cons_succ, List.getElem?_append,
              if_pos (by omega : i' < sub.length)]
            exact hi
        · rw [if_neg hj'] at h
          rcases ihl lvl (j' - sub.length) ℓ c h with ⟨hℓ, hc⟩ | ⟨hlt, i'', p, hij, hi, hcp⟩
          · exact Or.inl ⟨hℓ, List.mem_cons_of_mem s hc⟩
          · refine Or.inr ⟨hlt, sub.length + i'' + 1, p, by omega, ?_, hcp⟩
            rw [hout, List.getElem?_cons_succ, List.getElem?_append,
              if_neg (by omega : ¬sub.length + i'' < sub.length)]
            have : sub.length + i'' - sub.length = i'' := by omega
            rw [this]
            exact hi

/-- Every span printed by `printSpanList` is drawn from the printed list or
from some children list of the tree. -/
theorem printSpanList_mem (fuel : Nat) (tree : SpanTree) (l : List Span)
    (lvl j ℓ : Nat) (c : Span)
    (h : (printSpanList tree fuel l lvl)[j]? = some (ℓ, c)) :
    c ∈ l ∨ ∃ k, c ∈ treeChildren tree k := by
  rcases printSpanList_entry fuel tree l lvl j ℓ c h with ⟨_, hc⟩ | ⟨_, _, p, _, _, hcp⟩
  · exact Or.inl hc
  · exact Or.inr ⟨some p.spanId, hcp⟩

/-- C7: `export` files each span of the batch under its parent's span id
(under the `none` key when the span has no parent), and the printed output
places root spans at level 0 and every deeper span strictly after the span it
is filed under, printed one level higher, with the indentation string two
spaces per level. -/
theorem treeConsoleExport_spec (batch : List Span) (times : List (Nat × Nat))
    (fuel : Nat) :
    (∀ k, treeChildren (treeConsoleExport [] times batch fuel).1 k =
      batch.filter (fun s => s.parentSpanId == k)) ∧
    (∀ j ℓ c, ((treeConsoleExport [] times batch fuel).2.2)[j]? = some (ℓ, c) →
      c ∈ batch ∧ (spanIndent ℓ).length = 2 * ℓ ∧
      ((ℓ = 0 ∧ c.parentSpanId = none) ∨
       (0 < ℓ ∧ ∃ (i : Nat) (p : Span), i < j ∧
         ((treeConsoleExport [] times batch fuel).2.2)[i]? = some (ℓ - 1, p) ∧
         p ∈ batch ∧ c.parentSpanId = some p.spanId))) := by
  have htree : ∀ k, treeChildren (buildSpanTree [] batch) k =
      batch.filter (fun s => s.parentSpanId == k) := by
    intro k
    rw [treeChildren_buildSpanTree]
    rfl
  have hmem : ∀ (k : Option Nat) (c : Span),
      c ∈ treeChildren (buildSpanTree [] batch) k →
      c ∈ batch ∧ c.parentSpanId = k := by
    intro k c hc
    rw [htree] at hc
    have h2 := List.mem_filter.mp hc
    exact ⟨h2.1, eq_of_beq h2.2⟩
  refine ⟨htree, ?_⟩
  intro j ℓ c h
  cases fuel with
  | zero => simp [treeConsoleExport, print_tree] at h
  | succ f =>
    have hout : (treeConsoleExport [] times batch (f + 1)).2.2 =
        printSpanList (buildSpanTree [] batch) f
          (treeChildren (buildSpanTree [] batch) none) 0 := rfl
    rw [hout] at h
    have hcbatch : c ∈ batch := by
      rcases printSpanList_mem f _ _ 0 j ℓ c h with hc | ⟨k, hc⟩
      · exact (hmem none c hc).1
      · exact (hmem k c hc).1
    refine ⟨hcbatch, spanIndent_length ℓ, ?_⟩
    rcases printSpanList_entry f _ _ 0 j ℓ c h with ⟨hℓ, hc⟩ | ⟨hlt, i, p, hij, hi, hcp⟩
    · exact Or.inl ⟨hℓ, (hmem none c hc).2⟩
    · have hpbatch : p ∈ batch := by
        rcases printSpanList_mem f _ _ 0 i (ℓ - 1) p hi with hp | ⟨k, hp⟩
        · exact (hmem none p hp).1
        · exact (hmem k p hp).1
      refine Or.inr ⟨hlt, i, p, hij, ?_, hpbatch, (hmem _ c hcp).2⟩
      rw [hout]
      exact hi

/-- Witness for C7: the spec's two-span batch prints the root at level 0 and
the child at level 1 right after it. -/
theorem treeConsoleExport_spec_witness :
    spanChildEx ∈ [spanRootEx, spanChildEx] ∧ (spanIndent 1).length = 2 * 1 ∧
    ((1 = 0 ∧ spanChildEx.parentSpanId = none) ∨
     (0 < 1 ∧ ∃ (i : Nat) (p : Span), i < 1 ∧
       ((treeConsoleExport [] [] [spanRootEx, spanChildEx] 3).2.2)[i]? =
         some (1 - 1, p) ∧
       p ∈ [spanRootEx, spanChildEx] ∧
       spanChildEx.parentSpanId = some p.spanId)) :=
  (treeConsoleExport_spec [spanRootEx, spanChildEx] [] 3).2 1 1 spanChildEx
    (by decide)

/-- C10: `generate_seed_question` returns the empty string when the context is
`None` or empty, independently of the `llm_call` callable (which is therefore
not invoked); for a non-empty context it returns exactly the value produced by
`llm_call` on the given connection, model name, prompt, temperature and
max_tokens. -/
theorem generate_seed_question_spec {Conn Temp : Type}
    (llm_call : Conn → String → String → Temp → Nat → String)
    (connection : Conn) (mdn prompt : String) (context : Option String)
    (temperature : Temp) (max_tokens : Nat) :
    ((context = none ∨ context = some "") →
      generate_seed_question llm_call connection mdn prompt context
          temperature max_tokens = "" ∧
      ∀ llm_call2 : Conn → String → String → Temp → Nat → String,
        generate_seed_question llm_call connection mdn prompt context
            temperature max_tokens =
          generate_seed_question llm_call2 connection mdn prompt context
            temperature max_tokens) ∧
    (∀ c, context = some c → c ≠ "" →
      generate_seed_question llm_call connection mdn prompt context
          temperature max_tokens =
        llm_call connection mdn prompt temperature max_tokens) := by
  constructor
  · rintro (rfl | rfl)
    · exact ⟨rfl, fun _ => rfl⟩
    · refine ⟨?_, fun _ => ?_⟩ <;> simp [generate_seed_question]
  · rintro c rfl hc
    simp [generate_seed_question, hc]

/-- Witness for C10 at concrete inputs. -/
theorem generate_seed_question_spec_witness :
    generate_seed_question (fun _ _ _ _ _ => "live") () "m" "p" none () 512 = "" ∧
    generate_seed_question (fun _ _ _ _ _ => "live") () "m" "p" (some "ctx") () 512 =
      "live" :=
  ⟨((generate_seed_question_spec (fun _ _ _ _ _ => "live") () "m" "p" none ()
      512).1 (Or.inl rfl)).1,
   (generate_seed_question_spec (fun _ _ _ _ _ => "live") () "m" "p"
      (some "ctx") () 512).2 "ctx" rfl (by decide)⟩

/-! ## get_tracer

Embedding of the module-level tracer singleton of `tracer_manager.py`.
The `threading.Lock` serializes the body; the embedding is the sequential
state transformer it protects.  The provider built on first call carries the
`SERVICE_NAME: "promptflow"` resource and registers three span processors
(a `BatchSpanProcessor` around the Mdc exporter and two
`SimpleSpanProcessor`s around the tree-console and memory exporters);
`set_tracer_provider` registrations are counted in the state. -/

inductive ProcessorKind
  | batchMdc
  | simpleTreeConsole
  | simpleMemory
deriving DecidableEq, Repr

structure TracerProviderModel where
  service_name : String
  processors : List ProcessorKind
deriving DecidableEq, Repr

structure Tracer where
  name : String
  provider : TracerProviderModel
deriving DecidableEq, Repr

/-- The module globals `_tracer_instance` plus a count of
`trace.set_tracer_provider` registrations. -/
structure TracerGlobals where
  tracer_instance : Option Tracer
  provider_registrations : Nat
deriving DecidableEq, Repr

def initialTracerGlobals : TracerGlobals :=
  { tracer_instance := none, provider_registrations := 0 }

/-- `get_tracer(name)`: returns the cached instance when present; otherwise
builds the provider, registers it, caches and returns the new tracer. -/
def get_tracer (name : String) (g : TracerGlobals) : Tracer × TracerGlobals :=
  match g.tracer_instance with
  | some t => (t, g)
  | none =>
    let provider : TracerProviderModel :=
      { service_name := "promptflow",
        processors := [.batchMdc, .simpleTreeConsole, .simpleMemory] }
    let t : Tracer := { name := name, provider := provider }
    (t, { tracer_instance := some t,
          provider_registrations := g.provider_registrations + 1 })

/-- C8: starting from the uninitialized globals, the first `get_tracer` call
builds and registers the provider exactly once and caches the tracer; every
subsequent call (with any name) returns that same tracer instance and leaves
the globals unchanged (no re-initialization). -/
theorem get_tracer_idempotent (name1 name2 : String) :
    (get_tracer name1 initialTracerGlobals).2.provider_registrations = 1 ∧
    (get_tracer name1 initialTracerGlobals).2.tracer_instance =
      some (get_tracer name1 initialTracerGlobals).1 ∧
    get_tracer name2 (get_tracer name1 initialTracerGlobals).2 =
      ((get_tracer name1 initialTracerGlobals).1,
       (get_tracer name1 initialTracerGlobals).2) ∧
    (∀ (g : TracerGlobals) (t : Tracer) (name : String),
      g.tracer_instance = some t → get_tracer name g = (t, g)) := by
  refine ⟨rfl, rfl, rfl, ?_⟩
  intro g t name hg
  unfold get_tracer
  rw [hg]

/-- Witness for C8: a second call on an initialized state is the identity. -/
theorem get_tracer_idempotent_witness :
    (get_tracer "a" initialTracerGlobals).2.provider_registrations = 1 ∧
    get_tracer "b" (get_tracer "a" initialTracerGlobals).2 =
      ((get_tracer "a" initialTracerGlobals).1,
       (get_tracer "a" initialTracerGlobals).2) :=
  ⟨(get_tracer_idempotent "a" "b").1,
   (get_tracer_idempotent "a" "b").2.2.2 (get_tracer "a" initialTracerGlobals).2
     (get_tracer "a" initialTracerGlobals).1 "b" rfl⟩

/-! ## Experiment Controller (spec-modelled)

The Experiment Controller implementation is not part of this excerpt (only
its end-to-end tests are), so the definitions below are modelled from the
spec, sections 4.2 and 7. -/

inductive ExperimentStatus
  | notStarted
  | queuing
  | inProgress
  | completed
  | canceled
  | failed
  | terminated
deriving DecidableEq, Repr

/-- The status names as they appear in messages ("Experiment X is <status>"). -/
def ExperimentStatus.display : ExperimentStatus → String
  | .notStarted => "NotStarted"
  | .queuing => "Queuing"
  | .inProgress => "InProgress"
  | .completed => "Completed"
  | .canceled => "Canceled"
  | .failed => "Failed"
  | .terminated => "Terminated"

/-- Statuses from which `stop` is a no-op ("already terminal"). -/
def ExperimentStatus.isTerminal : ExperimentStatus → Bool
  | .completed | .canceled | .failed | .terminated => true
  | _ => false

inductive RunStatus
  | queued
  | running
  | completed
  | failed
  | canceled
deriving DecidableEq, Repr

structure NodeRun where
  runName : String
  nodeName : String
  status : RunStatus
deriving DecidableEq, Repr

structure Experiment where
  name : String
  nodes : List String
  status : ExperimentStatus
  node_runs : List (String × List NodeRun)
deriving DecidableEq, Repr

inductive PFErrorKind
  | validationError
  | invalidStateError
  | workerTimeout
  | workerCrash
  | recordNotFoundError
  | experimentNotFoundError
deriving DecidableEq, Repr

structure PFError where
  kind : PFErrorKind
  message : String
deriving DecidableEq, Repr

/-- The per-node run history: `node_runs[name]`, empty when absent. -/
def nodeRunsOf : List (String × List NodeRun) → String → List NodeRun
  | [], _ => []
  | (k, rs) :: rest, n => if k = n then rs else nodeRunsOf rest n

def findExperiment (store : List Experiment) (name : String) : Option Experiment :=
  store.find? (fun e => e.name == name)

def updateExperiment (store : List Experiment) (name : String) (e2 : Experiment) :
    List Experiment :=
  store.map (fun e => if e.name = name then e2 else e)

/-- Modelled from the spec: Experiment Controller `start(name)` (§4.2) — the
implementation is not in the excerpt.  Fails with an `InvalidStateError` kind
("Experiment X is <status>") if the experiment is already Queuing/InProgress,
leaving the store unchanged; otherwise transitions it to Queuing and returns
the updated snapshot. -/
def controllerStart (store : List Experiment) (name : String) :
    List Experiment × Except PFError Experiment :=
  match findExperiment store name with
  | none =>
    (store, .error { kind := .experimentNotFoundError,
                     message := "Experiment " ++ name ++ " not found" })
  | some exp =>
    if exp.status = .queuing ∨ exp.status = .inProgress then
      (store, .error { kind := .invalidStateError,
                       message := "Experiment " ++ exp.name ++ " is " ++
                         exp.status.display })
    else
      let exp2 : Experiment := { exp with status := .queuing }
      (updateExperiment store exp.name exp2, .ok exp2)

/-- One node run after a stop request: a `Running` run becomes `Canceled`,
others are untouched. -/
def cancelIfRunning (r : NodeRun) : NodeRun :=
  if r.status = .running then { r with status := .canceled } else r

def cancelRunningRuns (nrs : List (String × List NodeRun)) :
    List (String × List NodeRun) :=
  nrs.map (fun kv => (kv.1, kv.2.map cancelIfRunning))

/-- Modelled from the spec: Experiment Controller `stop(name)` (§4.2, §7) —
the implementation is not in the excerpt.  A no-op success on an already
terminal experiment; otherwise forces `Terminated` and cancels every node run
still `Running`. -/
def controllerStop (store : List Experiment) (name : String) :
    List Experiment × Except PFError Experiment :=
  match findExperiment store name with
  | none =>
    (store, .error { kind := .experimentNotFoundError,
                     message := "Experiment " ++ name ++ " not found" })
  | some exp =>
    if exp.status.isTerminal then
      (store, .ok exp)
    else
      let exp2 : Experiment :=
        { exp with status := .terminated,
                   node_runs := cancelRunningRuns exp.node_runs }
      (updateExperiment store exp.name exp2, .ok exp2)

/-- Concrete experiments used as witnesses. -/
def expQueuingEx : Experiment :=
  { name := "exp1", nodes := ["main", "eval"], status := .queuing, node_runs := [] }

def expInProgressEx : Experiment :=
  { name := "exp2", nodes := ["main"], status := .inProgress,
    node_runs := [("main",
      [{ runName := "r1", nodeName := "main", status := .running },
       { runName := "r0", nodeName := "main", status := .completed }])] }

def expTerminatedEx : Experiment :=
  { name := "exp3", nodes := ["main"], status := .terminated,
    node_runs := [("main", [{ runName := "r1", nodeName := "main", status := .completed }])] }

/-- C2: starting an experiment that is already Queuing or InProgress fails
with an `InvalidStateError`-kind error whose message contains the experiment
name and its current status, and leaves the store unchanged. -/
theorem controllerStart_invalid_state (store : List Experiment) (name : String)
    (exp : Experiment) (hfind : findExperiment store name = some exp)
    (hstatus : exp.status = .queuing ∨ exp.status = .inProgress) :
    ∃ err : PFError,
      controllerStart store name = (store, .error err) ∧
      err.kind = .invalidStateError ∧
      (∃ a b : String, err.message = a ++ exp.name ++ b) ∧
      (∃ a b : String, err.message = a ++ exp.status.display ++ b) := by
  refine ⟨{ kind := .invalidStateError,
            message := "Experiment " ++ exp.name ++ " is " ++ exp.status.display },
          ?_, rfl, ?_, ?_⟩
  · simp only [controllerStart, hfind]
    rw [if_pos hstatus]
  · exact ⟨"Experiment ", " is " ++ exp.status.display, by rw [String.append_assoc]⟩
  · exact ⟨"Experiment " ++ exp.name ++ " is ", "",
      by rw [String.append_empty]⟩

/-- Witness for C2: starting an already-queuing experiment fails. -/
theorem controllerStart_invalid_state_witness :
    ∃ err : PFError,
      controllerStart [expQueuingEx] "exp1" = ([expQueuingEx], .error err) ∧
      err.kind = .invalidStateError ∧
      (∃ a b : String, err.message = a ++ expQueuingEx.name ++ b) ∧
      (∃ a b : String, err.message = a ++ expQueuingEx.status.display ++ b) :=
  controllerStart_invalid_state [expQueuingEx] "exp1" expQueuingEx (by decide)
    (Or.inl rfl)

theorem nodeRunsOf_cancelRunningRuns (nrs : List (String × List NodeRun)) (n : String) :
    nodeRunsOf (cancelRunningRuns nrs) n = (nodeRunsOf nrs n).map cancelIfRunning := by
  induction nrs with
  | nil => rfl
  | cons kv rest ih =>
    obtain ⟨k, rs⟩ := kv
    by_cases hk : k = n
    · subst hk
      simp [cancelRunningRuns, nodeRunsOf]
    · simp [cancelRunningRuns, nodeRunsOf, hk] at ih ⊢
      exact ih

/-- C3: stopping an InProgress experiment forces it to Terminated and turns
every node run still Running into Canceled (other runs untouched, names
preserved); stopping an experiment already in a terminal status is a no-op
that changes no state and raises no error. -/
theorem controllerStop_spec (store : List Experiment) (name : String)
    (exp : Experiment) (hfind : findExperiment store name = some exp) :
    (exp.status = .inProgress →
      ∃ exp2 : Experiment,
        controllerStop store name = (updateExperiment store exp.name exp2, .ok exp2) ∧
        exp2.status = .terminated ∧
        ∀ (n : String) (j : Nat) (r : NodeRun),
          (nodeRunsOf exp.node_runs n)[j]? = some r →
          ∃ r2 : NodeRun,
            (nodeRunsOf exp2.node_runs n)[j]? = some r2 ∧
            r2.runName = r.runName ∧ r2.nodeName = r.nodeName ∧
            r2.status = (if r.status = .running then .canceled else r.status)) ∧
    (exp.status.isTerminal = true →
      controllerStop store name = (store, .ok exp)) := by
  constructor
  · intro hip
    refine ⟨{ exp with
        status := .terminated,
        node_runs := cancelRunningRuns exp.node_runs }, ?_, rfl, ?_⟩
    · simp only [controllerStop, hfind]
      rw [if_neg (by rw [hip]; simp [ExperimentStatus.isTerminal])]
    · intro n j r hj
      refine ⟨cancelIfRunning r, ?_, ?_, ?_, ?_⟩
      · show (nodeRunsOf (cancelRunningRuns exp.node_runs) n)[j]? = _
        rw [nodeRunsOf_cancelRunningRuns, List.getElem?_map, hj]
        rfl
      · unfold cancelIfRunning
        by_cases hr : r.status = .running <;> simp [hr]
      · unfold cancelIfRunning
        by_cases hr : r.status = .running <;> simp [hr]
      · unfold cancelIfRunning
        by_cases hr : r.status = .running <;> simp [hr]
  · intro hterm
    simp only [controllerStop, hfind]
    rw [if_pos hterm]

/-- Witness for C3: stopping an in-progress experiment, and stopping an
already-terminated one. -/
theorem controllerStop_spec_witness :
    (∃ exp2 : Experiment,
      controllerStop [expInProgressEx] "exp2" =
        (updateExperiment [expInProgressEx] expInProgressEx.name exp2, .ok exp2) ∧
      exp2.status = .terminated ∧
      ∀ (n : String) (j : Nat) (r : NodeRun),
        (nodeRunsOf expInProgressEx.node_runs n)[j]? = some r →
        ∃ r2 : NodeRun,
          (nodeRunsOf exp2.node_runs n)[j]? = some r2 ∧
          r2.runName = r.runName ∧ r2.nodeName = r.nodeName ∧
          r2.status = (if r.status = .running then .canceled else r.status)) ∧
    controllerStop [expTerminatedEx] "exp3" = ([expTerminatedEx], .ok expTerminatedEx) :=
  ⟨(controllerStop_spec [expInProgressEx] "exp2" expInProgressEx (by decide)).1 rfl,
   (controllerStop_spec [expTerminatedEx] "exp3" expTerminatedEx (by decide)).2
     (by decide)⟩

/-! ## DAG Scheduler dispatch and node_runs history (spec-modelled)

Modelled from the spec: the DAG Scheduler's dispatch of nodes (§4.1 re-run
semantics, §4.2 side effect, §8) — the scheduler implementation is not in the
excerpt.  Dispatching a node appends a fresh `NodeRun` to that node's
`node_runs` history; a start dispatches every node of the experiment once. -/

def mkNodeRun (n runName : String) : NodeRun :=
  { runName := runName, nodeName := n, status := .queued }

def appendNodeRun (nrs : List (String × List NodeRun)) (n : String) (r : NodeRun) :
    List (String × List NodeRun) :=
  match nrs with
  | [] => [(n, [r])]
  | (k, rs) :: rest =>
    if k = n then (k, rs ++ [r]) :: rest
    else (k, rs) :: appendNodeRun rest n r

/-- Modelled from the spec: dispatch of one node appends a new `NodeRun`
entry rather than mutating prior ones. -/
def dispatchNode (exp : Experiment) (n runName : String) : Experiment :=
  { exp with node_runs := appendNodeRun exp.node_runs n (mkNodeRun n runName) }

/-- Modelled from the spec: one `start` dispatches every node of the
experiment. -/
def dispatchAllNodes (exp : Experiment) (runName : String) : Experiment :=
  exp.nodes.foldl (fun e n => dispatchNode e n runName) exp

/-- A freshly created experiment: no node runs before the first start. -/
def freshExperiment (name : String) (nodes : List String) : Experiment :=
  { name := name, nodes := nodes, status := .notStarted, node_runs := [] }

/-- The experiment after a sequence of starts, each dispatching all nodes. -/
def runExperimentTimes (exp : Experiment) (runNames : List String) : Experiment :=
  runNames.foldl (fun e r => dispatchAllNodes e r) exp

theorem nodeRunsOf_appendNodeRun (nrs : List (String × List NodeRun))
    (m : String) (r : NodeRun) (n : String) :
    nodeRunsOf (appendNodeRun nrs m r) n =
      if n = m then nodeRunsOf nrs n ++ [r] else nodeRunsOf nrs n := by
  induction nrs with
  | nil =>
    by_cases hn : n = m
    · subst hn; simp [appendNodeRun, nodeRunsOf]
    · have h2 : ¬m = n := fun h => hn h.symm
      simp [appendNodeRun, nodeRunsOf, hn, h2]
  | cons kv rest ih =>
    obtain ⟨k, rs⟩ := kv
    by_cases hk : k = m
    · subst hk
      by_cases hn : n = k
      · subst hn; simp [appendNodeRun, nodeRunsOf]
      · have h2 : ¬k = n := fun h => hn h.symm
        simp [appendNodeRun, nodeRunsOf, hn, h2]
    · by_cases hkn : k = n
      · have hnm : ¬n = m := by
          intro h
          exact hk (hkn.trans h)
        simp [appendNodeRun, nodeRunsOf, hk, hkn, hnm]
      · simp [appendNodeRun, nodeRunsOf, hk, hkn, ih]

theorem nodeRunsOf_dispatchNode (exp : Experiment) (m runName n : String) :
    nodeRunsOf (dispatchNode exp m runName).node_runs n =
      if n = m then nodeRunsOf exp.node_runs n ++ [mkNodeRun m runName]
      else nodeRunsOf exp.node_runs n :=
  nodeRunsOf_appendNodeRun exp.node_runs m (mkNodeRun m runName) n

theorem foldl_dispatchNode (ns : List String) (runName n : String) :
    ∀ exp : Experiment,
      nodeRunsOf ((ns.foldl (fun e m => dispatchNode e m runName) exp).node_runs) n =
        nodeRunsOf exp.node_runs n ++
          List.replicate (ns.count n) (mkNodeRun n runName) := by
  induction ns with
  | nil => intro exp; simp
  | cons m ns ih =>
    intro exp
    show nodeRunsOf ((ns.foldl _ (dispatchNode exp m runName)).node_runs) n = _
    rw [ih (dispatchNode exp m runName), nodeRunsOf_dispatchNode]
    by_cases hn : n = m
    · rw [hn, if_pos rfl]
      have hc : (m :: ns).count m = ns.count m + 1 := by
        rw [List.count_cons]
        simp
      rw [hc, List.append_assoc, List.singleton_append, ← List.replicate_succ]
    · have hmn : ¬(m == n) = true := by
        simp only [beq_iff_eq]
        exact fun h => hn h.symm
      rw [if_neg hn, List.count_cons, if_neg hmn, Nat.add_zero]

theorem foldl_dispatchNode_nodes (ns : List String) (runName : String) :
    ∀ exp : Experiment,
      (ns.foldl (fun e m => dispatchNode e m runName) exp).nodes = exp.nodes := by
  induction ns with
  | nil => intro exp; rfl
  | cons m ns ih => intro exp; exact ih (dispatchNode exp m runName)

theorem nodeRunsOf_dispatchAllNodes (exp : Experiment) (runName n : String) :
    nodeRunsOf (dispatchAllNodes exp runName).node_runs n =
      nodeRunsOf exp.node_runs n ++
        List.replicate (exp.nodes.count n) (mkNodeRun n runName) :=
  foldl_dispatchNode exp.nodes runName n exp

theorem runExperimentTimes_length (nodes : List String) (n : String)
    (hcount : nodes.count n = 1) :
    ∀ (rns : List String) (exp : Experiment), exp.nodes = nodes →
      (nodeRunsOf (runExperimentTimes exp rns).node_runs n).length =
        (nodeRunsOf exp.node_runs n).length + rns.length := by
  intro rns
  induction rns with
  | nil => intro exp _; rfl
  | cons r rns ih =>
    intro exp hnodes
    show (nodeRunsOf (runExperimentTimes (dispatchAllNodes exp r) rns).node_runs n).length = _
    rw [ih (dispatchAllNodes exp r)
      (by rw [show (dispatchAllNodes exp r).nodes = exp.nodes from
        foldl_dispatchNode_nodes exp.nodes r exp, hnodes])]
    rw [nodeRunsOf_dispatchAllNodes, List.length_append, List.length_replicate,
      hnodes, hcount, List.length_cons]
    omega

/-- C6: a fresh experiment has an empty `node_runs` history for every node;
after k starts of an experiment whose node names are distinct, each node's
history has exactly k entries; and dispatching never mutates the entries of
prior runs (they are preserved at their indices). -/
theorem node_runs_history (name : String) (nodes : List String)
    (runNames : List String) (n : String) :
    nodeRunsOf (freshExperiment name nodes).node_runs n = [] ∧
    (nodes.Nodup → n ∈ nodes →
      (nodeRunsOf (runExperimentTimes (freshExperiment name nodes) runNames).node_runs n).length
        = runNames.length) ∧
    (∀ (exp : Experiment) (rn : String) (i : Nat),
      i < (nodeRunsOf exp.node_runs n).length →
      (nodeRunsOf (dispatchAllNodes exp rn).node_runs n)[i]? =
        (nodeRunsOf exp.node_runs n)[i]?) := by
  refine ⟨rfl, ?_, ?_⟩
  · intro hnd hmem
    have hcount : nodes.count n = 1 := List.count_eq_one_of_mem hnd hmem
    rw [runExperimentTimes_length nodes n hcount runNames
      (freshExperiment name nodes) rfl]
    simp [freshExperiment, nodeRunsOf]
  · intro exp rn i hi
    rw [nodeRunsOf_dispatchAllNodes, List.getElem?_append_left hi]

/-- Witness for C6: two starts of a two-node experiment yield history length
2, and the first entry of a prior run survives a new dispatch unchanged. -/
theorem node_runs_history_witness :
    (nodeRunsOf (runExperimentTimes (freshExperiment "exp" ["main", "eval"])
        ["r1", "r2"]).node_runs "main").length = (["r1", "r2"] : List String).length ∧
    (nodeRunsOf (dispatchAllNodes expInProgressEx "r9").node_runs "main")[0]? =
      (nodeRunsOf expInProgressEx.node_runs "main")[0]? :=
  ⟨(node_runs_history "exp" ["main", "eval"] ["r1", "r2"] "main").2.1
      (by decide) (by decide),
   (node_runs_history "exp" ["main", "eval"] ["r1", "r2"] "main").2.2
      expInProgressEx "r9" 0 (by decide)⟩

/-! ## Experiment status state machine (spec-modelled)

Modelled from the spec (§4.2): the Experiment Controller's transition chain
`NotStarted --start--> Queuing --scheduler begins--> InProgress
--all nodes terminal--> {Completed | Failed} --> Terminated`; the
implementation is not in the excerpt.  `stop` transitions are modelled by
`controllerStop` above and are not part of the normal chain. -/

inductive NormalStep : ExperimentStatus → ExperimentStatus → Prop
  | start : NormalStep .notStarted .queuing
  | schedulerBegins : NormalStep .queuing .inProgress
  | allNodesCompleted : NormalStep .inProgress .completed
  | someNodeFailed : NormalStep .inProgress .failed
  | finalizeCompleted : NormalStep .completed .terminated
  | finalizeFailed : NormalStep .failed .terminated

/-- The last element of a chain is either the head or the target of some step
from an element of the chain. -/
theorem chain_last_reached {α : Type} (R : α → α → Prop) :
    ∀ (tr : List α) (z : α), tr.Chain' R → tr.getLast? = some z →
      tr.head? = some z ∨ ∃ y ∈ tr, R y z := by
  intro tr
  induction tr with
  | nil => intro z _ hlast; simp at hlast
  | cons x rest ih =>
    intro z hchain hlast
    cases rest with
    | nil =>
      left
      simp at hlast
      rw [hlast]
      rfl
    | cons y rest2 =>
      have hstep : R x y ∧ List.Chain' R (y :: rest2) := List.chain'_cons.mp hchain
      have hlast2 : (y :: rest2).getLast? = some z := by
        rw [← hlast]
        exact List.getLast?_cons_cons.symm
      rcases ih z hstep.2 hlast2 with hhead | ⟨w, hw, hRw⟩
      · right
        have hy : y = z := by
          simp at hhead
          exact hhead
        exact ⟨x, List.mem_cons_self x (y :: rest2), hy ▸ hstep.1⟩
      · exact Or.inr ⟨w, List.mem_cons_of_mem x hw, hRw⟩

/-- Only Completed and Failed step to Terminated in the normal chain. -/
theorem normalStep_to_terminated (a : ExperimentStatus)
    (h : NormalStep a .terminated) : a = .completed ∨ a = .failed := by
  cases h
  · exact Or.inl rfl
  · exact Or.inr rfl

/-- C4: the normal transitions are exactly the spec's chain, and every run of
the state machine that starts at NotStarted and ends at Terminated passes
through Completed or Failed before reaching Terminated. -/
theorem experiment_status_chain :
    (∀ a b : ExperimentStatus, NormalStep a b ↔
      ((a = .notStarted ∧ b = .queuing) ∨
       (a = .queuing ∧ b = .inProgress) ∨
       (a = .inProgress ∧ (b = .completed ∨ b = .failed)) ∨
       ((a = .completed ∨ a = .failed) ∧ b = .terminated))) ∧
    (∀ tr : List ExperimentStatus, tr.Chain' NormalStep →
      tr.head? = some .notStarted → tr.getLast? = some .terminated →
      .completed ∈ tr ∨ .failed ∈ tr) := by
  constructor
  · intro a b
    constructor
    · intro h
      cases h
      · exact Or.inl ⟨rfl, rfl⟩
      · exact Or.inr (Or.inl ⟨rfl, rfl⟩)
      · exact Or.inr (Or.inr (Or.inl ⟨rfl, Or.inl rfl⟩))
      · exact Or.inr (Or.inr (Or.inl ⟨rfl, Or.inr rfl⟩))
      · exact Or.inr (Or.inr (Or.inr ⟨Or.inl rfl, rfl⟩))
      · exact Or.inr (Or.inr (Or.inr ⟨Or.inr rfl, rfl⟩))
    · rintro (⟨rfl, rfl⟩ | ⟨rfl, rfl⟩ | ⟨rfl, rfl | rfl⟩ | ⟨rfl | rfl, rfl⟩)
      · exact .start
      · exact .schedulerBegins
      · exact .allNodesCompleted
      · exact .someNodeFailed
      · exact .finalizeCompleted
      · exact .finalizeFailed
  · intro tr hchain hhead hlast
    rcases chain_last_reached NormalStep tr .terminated hchain hlast with hh | ⟨y, hy, hstep⟩
    · rw [hhead] at hh
      exact absurd (Option.some.inj hh) (by intro h; cases h)
    · rcases normalStep_to_terminated y hstep with h1 | h1
      · exact Or.inl (h1 ▸ hy)
      · exact Or.inr (h1 ▸ hy)

/-- Witness for C4: the canonical successful trace passes through Completed. -/
theorem experiment_status_chain_witness :
    ExperimentStatus.completed ∈
      ([.notStarted, .queuing, .inProgress, .completed, .terminated] :
        List ExperimentStatus) ∨
    ExperimentStatus.failed ∈
      ([.notStarted, .queuing, .inProgress, .completed, .terminated] :
        List ExperimentStatus) :=
  experiment_status_chain.2
    [.notStarted, .queuing, .inProgress, .completed, .terminated]
    (List.chain'_cons.mpr ⟨.start, List.chain'_cons.mpr ⟨.schedulerBegins,
      List.chain'_cons.mpr ⟨.allNodesCompleted, List.chain'_cons.mpr
        ⟨.finalizeCompleted, List.chain'_singleton _⟩⟩⟩⟩)
    rfl rfl

/-! ## Call Recorder/Replayer (spec-modelled)

Modelled from the spec (§4.4, §3 CallRecord): the `RecordStorage`
implementation is not in the excerpt (only the test fixtures that install
it).  The store maps a deterministic key to captured results, disambiguated
by a per-key occurrence index. -/

structure CallRecord (K R : Type) where
  key : K
  occurrence : Nat
  result : R
deriving DecidableEq

/-- Modelled from the spec: recording mode executes the live callable, then
appends the (key, occurrence, result) triple; the occurrence index is the
number of records already stored under the same key. -/
def recordCall {A K R : Type} [DecidableEq K] (keyOf : A → K) (live : A → R)
    (store : List (CallRecord K R)) (args : A) : R × List (CallRecord K R) :=
  let r := live args
  let k := keyOf args
  let occ := (store.filter (fun e => e.key == k)).length
  (r, store ++ [{ key := k, occurrence := occ, result := r }])

/-- Modelled from the spec: replaying mode intercepts the call and returns
the stored result for (key, occurrence); the live callable is not an input,
so replay can never fall back to live execution, and a missing key is a hard
`RecordNotFoundError`. -/
def replayCall {A K R : Type} [DecidableEq K] (keyOf : A → K)
    (store : List (CallRecord K R)) (occ : Nat) (args : A) : Except PFError R :=
  match store.find? (fun e => e.key == keyOf args && e.occurrence == occ) with
  | some e => .ok e.result
  | none => .error { kind := .recordNotFoundError,
                     message := "Record not found" }

/-- C5: recording a call and then replaying with identical arguments returns
output identical to the recorded result (which is the live result), and
replaying against a store in which the call's key was never recorded fails
with a `RecordNotFoundError`-kind error instead of falling back to live
execution. -/
theorem record_replay_roundtrip {A K R : Type} [DecidableEq K]
    (keyOf : A → K) (live : A → R) (store : List (CallRecord K R)) (args : A)
    (hfresh : ∀ e ∈ store, e.key ≠ keyOf args) :
    (recordCall keyOf live store args).1 = live args ∧
    replayCall keyOf (recordCall keyOf live store args).2 0 args =
      .ok (live args) ∧
    replayCall keyOf store 0 args =
      .error { kind := .recordNotFoundError, message := "Record not found" } := by
  have hfindnone :
      store.find? (fun e => e.key == keyOf args && e.occurrence == 0) = none := by
    rw [List.find?_eq_none]
    intro e he
    have hne : (e.key == keyOf args) = false := by
      simp only [beq_eq_false_iff_ne, ne_eq]
      exact hfresh e he
    simp [hne]
  refine ⟨rfl, ?_, ?_⟩
  · have hfilter : store.filter (fun e => e.key == keyOf args) = [] := by
      rw [List.filter_eq_nil_iff]
      intro e he
      simp only [beq_iff_eq]
      exact hfresh e he
    have hrec : (recordCall keyOf live store args).2 =
        store ++ [{ key := keyOf args, occurrence := 0, result := live args }] := by
      simp only [recordCall]
      rw [hfilter]
      rfl
    rw [hrec]
    simp only [replayCall, List.find?_append, hfindnone, Option.none_or]
    have hone : List.find?
        (fun e : CallRecord K R => e.key == keyOf args && e.occurrence == 0)
        [{ key := keyOf args, occurrence := 0, result := live args }] =
        some { key := keyOf args, occurrence := 0, result := live args } := by
      simp [List.find?_cons]
    rw [hone]
  · simp only [replayCall, hfindnone]

/-- Witness for C5 at concrete inputs over `Nat`. -/
theorem record_replay_roundtrip_witness :
    (recordCall (fun a : Nat => a) (fun a => a + 1) [] 3).1 = 4 ∧
    replayCall (fun a : Nat => a)
        (recordCall (fun a : Nat => a) (fun a => a + 1) [] 3).2 0 3 = .ok 4 ∧
    replayCall (fun a : Nat => a) ([] : List (CallRecord Nat Nat)) 0 3 =
      .error { kind := .recordNotFoundError, message := "Record not found" } :=
  record_replay_roundtrip (fun a => a) (fun a => a + 1) [] 3
    (by intro e he; cases he)
